import Mathlib

/-!
Verification development for the gamerr release reconciliation engine
(`app/services.py`, `app/jobs.py`, `app/models.py`).

The Python source is shallowly embedded below.  Pure helper functions become
Lean functions, the database-backed reconciliation pass becomes an explicit
state transformer over a `Store` record, and the external NFO fetcher is a
function parameter.  String processing models CPython semantics on the ASCII
fragment the engine actually manipulates (uppercase/lowercase folding,
`str.split`, regex character-class substitutions); Unicode details that the
claims never touch (full NFD decomposition, non-ASCII word characters) are
modelled by a finite diacritic-folding table and are noted at each definition.
-/

namespace Gamearr

/-! ## Basic string utilities (models of the Python `str`/`re` operations) -/

/-- A regex word character (`\w`) on the ASCII fragment: alphanumeric or
underscore.  CPython's `\w` additionally matches non-ASCII letters; the engine
only ever compares ASCII keywords, and accented letters are folded to ASCII
before this predicate is consulted. -/
def isWordChar (c : Char) : Bool := c.isAlphanum || c = '_'

/-- Split a character list on whitespace runs, dropping empty pieces; `acc`
holds the current word reversed. -/
def splitWsAux : List Char → List Char → List (List Char)
  | acc, [] => if acc.isEmpty then [] else [acc.reverse]
  | acc, c :: rest =>
    if c.isWhitespace then
      if acc.isEmpty then splitWsAux [] rest
      else acc.reverse :: splitWsAux [] rest
    else splitWsAux (c :: acc) rest

/-- Python `str.split()` with no argument: split on whitespace runs and drop
empty pieces. -/
def pySplit (s : String) : List String :=
  (splitWsAux [] s.data).map String.mk

/-- Python `str.upper()` (ASCII folding; the engine compares ASCII
keywords). -/
def strUpper (s : String) : String := String.mk (s.data.map Char.toUpper)

/-- Python `str.lower()` (ASCII folding). -/
def strLower (s : String) : String := String.mk (s.data.map Char.toLower)

/-- Replace every character from `seps` by a space; models chained
`str.replace(sep, ' ')` calls and `re.sub` over a separator class. -/
def sepToSpace (seps : List Char) (s : String) : String :=
  String.mk (s.data.map (fun c => if seps.contains c then ' ' else c))

/-- `needle` occurs as a contiguous sublist of the second argument; models the
Python substring test `needle in hay`. -/
def isSubstrList (needle : List Char) : List Char → Bool
  | [] => needle.isEmpty
  | c :: rest => List.isPrefixOf needle (c :: rest) || isSubstrList needle rest

/-- Python `needle in hay` on strings. -/
def strContains (hay needle : String) : Bool := isSubstrList needle.data hay.data

/-- Python `hay.endswith(suffix)`. -/
def strEndsWith (hay suffix : String) : Bool :=
  List.isPrefixOf suffix.data.reverse hay.data.reverse

/-- Models Python `html.unescape` restricted to the five predefined XML
entities; any other ampersand sequence passes through unchanged.  (CPython
additionally resolves the full HTML5 named and numeric entity tables, which
the release names produced by the JSON/XML source adapters never contain.) -/
def htmlUnescapeList : List Char → List Char
  | '&' :: 'a' :: 'm' :: 'p' :: ';' :: rest => '&' :: htmlUnescapeList rest
  | '&' :: 'l' :: 't' :: ';' :: rest => '<' :: htmlUnescapeList rest
  | '&' :: 'g' :: 't' :: ';' :: rest => '>' :: htmlUnescapeList rest
  | '&' :: 'q' :: 'u' :: 'o' :: 't' :: ';' :: rest => '"' :: htmlUnescapeList rest
  | '&' :: 'a' :: 'p' :: 'o' :: 's' :: ';' :: rest => '\'' :: htmlUnescapeList rest
  | c :: rest => c :: htmlUnescapeList rest
  | [] => []

def htmlUnescape (s : String) : String := String.mk (htmlUnescapeList s.data)

/-- Finite model of `unicodedata.normalize('NFD', ·)` followed by dropping
combining marks: the common accented Latin letters fold to their ASCII base;
every other character is left unchanged. -/
def foldDiacritic (c : Char) : Char :=
  if c ∈ ['á', 'à', 'â', 'ä', 'ã', 'å'] then 'a'
  else if c ∈ ['é', 'è', 'ê', 'ë'] then 'e'
  else if c ∈ ['í', 'ì', 'î', 'ï'] then 'i'
  else if c ∈ ['ó', 'ò', 'ô', 'ö', 'õ'] then 'o'
  else if c ∈ ['ú', 'ù', 'û', 'ü'] then 'u'
  else if c = 'ñ' then 'n'
  else if c = 'ç' then 'c'
  else if c = 'ý' then 'y'
  else c

/-! ## `_calculate_title_similarity` (services.py lines 166-190) -/

/-- The stoplist of generic release tokens (`common_words` in
`_calculate_title_similarity`). -/
def COMMON_WORDS : List String :=
  ["repack", "multi", "multilingual", "campaign", "kampagne",
   "complete", "edition", "goty", "deluxe", "ultimate", "directors",
   "cut", "enhanced", "definitive", "special", "collectors",
   "2022", "2023", "2024", "2025", "multi2", "multi8", "multi4",
   "xx", "x"]

/-- Tokenization used by `_calculate_title_similarity`: replace `[._-]` by
spaces, lowercase, strip `[^\w\s]`, split on whitespace, take the set. -/
def titleTokens (s : String) : Finset String :=
  (pySplit (String.mk ((strLower (sepToSpace ['.', '_', '-'] s)).data.filter
    (fun c => isWordChar c || c.isWhitespace)))).toFinset

/-- `_calculate_title_similarity(game_title, release_name)`: fraction of the
game title's tokens that occur in the candidate's token set after removing the
stoplist from the candidate side; 0 when either token set is empty. -/
def calculateTitleSimilarity (gameTitle releaseName : String) : ℚ :=
  let gameWords := titleTokens gameTitle
  let releaseWords := titleTokens releaseName \ COMMON_WORDS.toFinset
  if gameWords.card = 0 ∨ releaseWords.card = 0 then 0
  else mkRat ((gameWords ∩ releaseWords).card : Int) gameWords.card

/-! ## Roman-numeral guard and module-level `_is_valid_game_match`
(services.py lines 207-223) -/

/-- The alternatives of the regex `\b(II|III|IV|V|VI|VII|VIII|IX|X)\b` in the
order the alternation lists them. -/
def romanAlts : List (List Char) :=
  [['I', 'I'], ['I', 'I', 'I'], ['I', 'V'], ['V'], ['V', 'I'],
   ['V', 'I', 'I'], ['V', 'I', 'I', 'I'], ['I', 'X'], ['X']]

/-- Does one alternation branch match at the head of `cs` with a word boundary
after it? -/
def romanMatchHere (alt cs : List Char) : Bool :=
  List.isPrefixOf alt cs &&
    (match cs.drop alt.length with
     | [] => true
     | c :: _ => !isWordChar c)

/-- Scan for the regex `\b(II|III|IV|V|VI|VII|VIII|IX|X)\b`: leftmost
position first, alternatives in alternation order; `prevOk` records whether a
word boundary holds before the current position. -/
def firstRomanAux : Bool → List Char → Option (List Char)
  | _, [] => none
  | prevOk, c :: rest =>
    match (if prevOk then romanAlts.find? (fun alt => romanMatchHere alt (c :: rest))
           else none) with
    | some alt => some alt
    | none => firstRomanAux (!isWordChar c) rest

/-- `re.search(r'\b(II|III|IV|V|VI|VII|VIII|IX|X)\b', s)` returning the
matched group. -/
def firstRoman (s : String) : Option String :=
  (firstRomanAux true s.data).map String.mk

/-- Module-level `_is_valid_game_match(game_title, release_name,
min_similarity)`: the Roman-numeral guard followed by the similarity
threshold.  Used by `check_source_fitgirl` with `min_similarity=0.8`; the
reconciliation pass itself uses the inner matcher below instead. -/
def isValidGameMatch (gameTitle releaseName : String) (minSimilarity : ℚ := mkRat 7 10) : Bool :=
  let similarity := calculateTitleSimilarity gameTitle releaseName
  match firstRoman gameTitle, firstRoman releaseName with
  | some g, some r =>
    if g ≠ r then false else decide (minSimilarity ≤ similarity)
  | some _, none => false
  | none, _ => decide (minSimilarity ≤ similarity)

/-- The matching loop of `check_source_fitgirl` (services.py lines 263-267):
return the first found title that passes the module-level matcher at the
stricter 0.8 threshold. -/
def fitgirlSelect (gameTitle : String) (foundTitles : List String) : Option String :=
  foundTitles.find? (fun t => isValidGameMatch gameTitle t (mkRat 8 10))

/-! ## The inner `_is_valid_game_match` of the pass (services.py 463-484) -/

/-- Join words with single spaces; models the whitespace collapsing
`re.sub(r'\s+', ' ', ·).strip()`. -/
def joinSpaces : List (List Char) → List Char
  | [] => []
  | [w] => w
  | w :: ws => w ++ ' ' :: joinSpaces ws

/-- `_simplify_text` inside the pass's matcher: lowercase, `[_.:-]` to
spaces, fold diacritics, drop `[^\w\s]`, collapse whitespace and strip. -/
def simplifyText (s : String) : String :=
  let t := sepToSpace ['_', '.', ':', '-'] (strLower s)
  let t := String.mk (t.data.map foldDiacritic)
  let t := t.data.filter (fun c => isWordChar c || c.isWhitespace)
  String.mk (joinSpaces (splitWsAux [] t))

/-- The pass's `_is_valid_game_match(official_title, candidate_name)`: the
simplified title must occur as a substring of the simplified candidate. -/
def isValidGameMatchPass (officialTitle candidateName : String) : Bool :=
  strContains (simplifyText candidateName) (simplifyText officialTitle)

/-! ## Dates, timestamps and `_calculate_relevancy_score`
(services.py lines 441-456) -/

/-- A Python value that can appear in the `release_timestamp` argument: the
sources produce either `None` or an `int`; a string models a raw payload that
skipped `_safe_timestamp_convert`. -/
inductive PyTs where
  | none
  | int (n : Int)
  | str (s : String)
deriving DecidableEq, Repr

/-- Python truthiness of the timestamp value (`if not release_timestamp`). -/
def PyTs.truthy : PyTs → Bool
  | .none => false
  | .int n => n ≠ 0
  | .str s => s ≠ ""

/-- Decimal digit parsing on a character list: `Option.none` unless the list
is nonempty and all digits. -/
def digitsToNat? (cs : List Char) : Option Nat :=
  if cs.isEmpty || ¬ cs.all Char.isDigit then Option.none
  else some (cs.foldl (fun n c => 10 * n + (c.toNat - '0'.toNat)) 0)

/-- Python `int(·)` applied to a string: optional surrounding whitespace, an
optional sign, then decimal digits.  (Digit-group underscores are not
modelled.)  `Option.none` models the `ValueError` the `except` clause eats. -/
def parseIntLit (s : String) : Option Int :=
  let core := (s.data.dropWhile Char.isWhitespace).reverse.dropWhile Char.isWhitespace |>.reverse
  match core with
  | '-' :: ds => (digitsToNat? ds).map (fun n => -(n : Int))
  | '+' :: ds => (digitsToNat? ds).map (fun n => (n : Int))
  | ds => (digitsToNat? ds).map (fun n => (n : Int))

/-- Python `int(release_timestamp)`; `Option.none` models an exception. -/
def PyTs.toInt : PyTs → Option Int
  | .none => Option.none
  | .int n => some n
  | .str s => parseIntLit s

/-- An embedded `Option Int` timestamp (what the feed actually carries) as a
Python value. -/
def optTs : Option Int → PyTs
  | Option.none => PyTs.none
  | some n => PyTs.int n

structure Date where
  year : Nat
  month : Nat
  day : Nat
deriving DecidableEq, Repr

def isLeapYear (y : Nat) : Bool := (y % 4 = 0 && y % 100 ≠ 0) || y % 400 = 0

def daysInMonth (y m : Nat) : Nat :=
  if m = 2 then (if isLeapYear y then 29 else 28)
  else if m ∈ [4, 6, 9, 11] then 30
  else 31

/-- Split a character list at every occurrence of `sep`, keeping empty
pieces; models Python `str.split(sep)`. -/
def splitOnChar (sep : Char) : List Char → List (List Char)
  | [] => [[]]
  | c :: rest =>
    match splitOnChar sep rest with
    | [] => [[]]
    | w :: ws => if c = sep then [] :: w :: ws else (c :: w) :: ws

/-- `datetime.strptime(s, '%Y-%m-%d')`: four year digits, one or two month and
day digits, and the resulting calendar date must exist; `Option.none` models
the `ValueError` the `except` clause eats. -/
def parseDateYMD (s : String) : Option Date :=
  match splitOnChar '-' s.data with
  | [ys, ms, ds] =>
    match digitsToNat? ys, digitsToNat? ms, digitsToNat? ds with
    | some y, some m, some d =>
      if ys.length = 4 ∧ ms.length ≤ 2 ∧ ds.length ≤ 2 ∧
          1 ≤ y ∧ 1 ≤ m ∧ m ≤ 12 ∧ 1 ≤ d ∧ d ≤ daysInMonth y m
      then some ⟨y, m, d⟩ else none
    | _, _, _ => none
  | _ => none

/-- Days from 1970-01-01 to the given civil date (standard days-from-civil
computation); `datetime.fromtimestamp` is taken at UTC, so the timedelta in
the scorer is `ts - 86400 * epochDays d` seconds. -/
def epochDays (dt : Date) : Int :=
  let y : Int := if dt.month ≤ 2 then (dt.year : Int) - 1 else (dt.year : Int)
  let era : Int := Int.fdiv y 400
  let yoe : Int := y - era * 400
  let mp : Int := if dt.month > 2 then (dt.month : Int) - 3 else (dt.month : Int) + 9
  let doy : Int := Int.fdiv (153 * mp + 2) 5 + (dt.day : Int) - 1
  let doe : Int := yoe * 365 + Int.fdiv yoe 4 - Int.fdiv yoe 100 + doy
  era * 146097 + doe - 719468

/-- The recency buckets of `_calculate_relevancy_score`, evaluated in source
order. -/
def bucketScore (deltaDays : Int) : Int :=
  if deltaDays < -30 then -1000
  else if deltaDays ≤ 90 then 200
  else if deltaDays ≤ 365 then 150
  else if deltaDays ≤ 730 then 100
  else if deltaDays ≤ 1095 then 50
  else if deltaDays ≤ 1460 then 25
  else -1000

/-- Smallest epoch-second timestamp `datetime.fromtimestamp` accepts:
0001-01-01 00:00:00 UTC.  `epochDays ⟨1, 1, 1⟩ = -719162`, so the bound is
`-719162 * 86400`; below it the year underflows `datetime.MINYEAR` and
`fromtimestamp` raises. -/
def fromtimestampMin : Int := -62135596800

/-- Largest epoch-second timestamp `datetime.fromtimestamp` accepts:
9999-12-31 23:59:59 UTC.  `epochDays ⟨9999, 12, 31⟩ = 2932896`, so the bound
is `2932897 * 86400 - 1`; above it the year overflows `datetime.MAXYEAR`
and `fromtimestamp` raises (e.g. on millisecond-epoch integers). -/
def fromtimestampMax : Int := 253402300799

/-- `_calculate_relevancy_score(game_release_date, release_timestamp)`: 0 when
either value is falsy or when date parsing / int conversion /
`datetime.fromtimestamp` raises (the bare `except` catches the
year-out-of-range `ValueError` too), otherwise the recency bucket of the
whole-day difference (timedelta `.days` is floor division by 86400
seconds). -/
def calcRelevancyScore (gameReleaseDate : Option String) (releaseTimestamp : PyTs) : Int :=
  if gameReleaseDate.getD "" = "" ∨ ¬ releaseTimestamp.truthy then 0
  else
    match parseDateYMD (gameReleaseDate.getD ""), releaseTimestamp.toInt with
    | some d, some ts =>
      if fromtimestampMin ≤ ts ∧ ts ≤ fromtimestampMax then
        bucketScore (Int.fdiv (ts - 86400 * epochDays d) 86400)
      else 0
    | _, _ => 0

/-- The piecewise relevancy reference exactly as the specification words it
(§4.4): buckets over `delta_days`, most-recent-first, evaluated in this exact
order.  Kept separate from `bucketScore` so the code-derived scorer can be
compared against the specification's table. -/
def specRelevancyBuckets (deltaDays : Int) : Int :=
  if deltaDays < -30 then -1000
  else if deltaDays ≤ 90 then 200
  else if deltaDays ≤ 365 then 150
  else if deltaDays ≤ 730 then 100
  else if deltaDays ≤ 1095 then 50
  else if deltaDays ≤ 1460 then 25
  else -1000

/-! ## Engine constants and per-candidate classification
(services.py lines 433-438, 458-461, 505-532) -/

def MOVIE_KEYWORDS : List String :=
  ["BDRIP", "BLURAY", "HDTV", "X264", "X265", "DTSHD", "DVDRIP"]

def PLATFORM_KEYWORDS : List String :=
  ["MACOS", "LINUX", "NSW", "PS4", "PS5", "XBOX", "WII", "NGC", "PS2DVD"]

def TYPE_BLOCKED_KEYWORDS : List String :=
  ["UPDATE", "DLC", "PATCH", "CRACKFIX", "TRAINER"]

def REPACK_GROUPS : List String :=
  ["FITGIRL", "DODI", "ELAMIGOS", "KAOSKREW", "MASQUERADE"]

/-- `TIER_ORDER.get(t, 0)` for `{'Scene': 2, 'Repack': 1, 'P2P': 0}`. -/
def tierOrder (t : String) : Nat :=
  if t = "Scene" then 2 else if t = "Repack" then 1 else 0

/-- `upper_words`: uppercase, separators to spaces, split into the keyword
set. -/
def upperWords (s : String) : List String :=
  pySplit (sepToSpace ['.', '_', '-'] (strUpper s))

/-- `not KEYWORDS.isdisjoint(words)`. -/
def hitsAny (keywords words : List String) : Bool :=
  words.any (fun w => decide (w ∈ keywords))

/-- `_detect_type(release_name, original_type)`: force `Repack` when a known
repack-group name occurs in the uppercased release name. -/
def detectType (releaseName originalType : String) : String :=
  if REPACK_GROUPS.any (fun rg => strContains (strUpper releaseName) rg) then "Repack"
  else originalType

/-- One entry of the merged `all_releases` dict: raw name (the dict key) plus
the `source` / `type` / `timestamp` value fields. -/
structure Candidate where
  name : String
  source : String
  rtype : String
  timestamp : Option Int
deriving DecidableEq, Repr

/-- A surviving base-game candidate record as built in STEP 2 of the pass. -/
structure BaseCand where
  name : String
  source : String
  rtype : String
  timestamp : Option Int
  score : Int
  is_pc : Bool
deriving DecidableEq, Repr

/-- The add-on branch of STEP 2: a raw name whose keyword set meets
`TYPE_BLOCKED_KEYWORDS` is diverted to the add-on list (clean name and
source kept). -/
def toAddon? (c : Candidate) : Option (String × String) :=
  let clean := htmlUnescape c.name
  if hitsAny TYPE_BLOCKED_KEYWORDS (upperWords clean) then some (clean, c.source)
  else none

/-- The base-game branch of STEP 2: blocked-keyword and movie-keyword names
are dropped, the pass's matcher must accept, and a negative relevancy score
discards the candidate; otherwise the candidate record is built with the
repack-group tier override and the PC-platform flag. -/
def toBase? (officialTitle : String) (gameReleaseDate : Option String)
    (c : Candidate) : Option BaseCand :=
  let clean := htmlUnescape c.name
  let uw := upperWords clean
  if hitsAny TYPE_BLOCKED_KEYWORDS uw then none
  else if hitsAny MOVIE_KEYWORDS uw then none
  else if ¬ isValidGameMatchPass officialTitle clean then none
  else
    let score := calcRelevancyScore gameReleaseDate (optTs c.timestamp)
    if score < 0 then none
    else some { name := clean, source := c.source,
                rtype := detectType clean c.rtype, timestamp := c.timestamp,
                score := score, is_pc := ! hitsAny PLATFORM_KEYWORDS uw }

/-! ## Ranking (services.py lines 538-542) -/

abbrev SortKey := Bool × Int × Nat

def sortKey (c : BaseCand) : SortKey := (c.is_pc, c.score, tierOrder c.rtype)

/-- Python `False < True`. -/
def boolLe (a b : Bool) : Bool := !a || b

/-- Lexicographic comparison of sort keys, Python tuple order. -/
def keyLe (k1 k2 : SortKey) : Bool :=
  if k1.1 ≠ k2.1 then boolLe k1.1 k2.1
  else if k1.2.1 ≠ k2.2.1 then decide (k1.2.1 ≤ k2.2.1)
  else decide (k1.2.2 ≤ k2.2.2)

/-- `a` may precede `b` in the descending sort: its key is at least `b`'s.
`sorted(..., reverse=True)` is a stable descending sort under this
relation. -/
def candLe (a b : BaseCand) : Bool := keyLe (sortKey b) (sortKey a)

/-- Insert `a` after every element that strictly precedes it (`le b a` but
not `le a b`), i.e. before the first element it ties with or precedes; the
insertion step of a stable sort when elements are inserted in reverse input
order. -/
def stableInsert {α : Type} (le : α → α → Bool) (a : α) : List α → List α
  | [] => [a]
  | b :: bs => if le b a && ! le a b then b :: stableInsert le a bs else a :: b :: bs

/-- Stable insertion sort: `foldr` inserts the input's elements from last to
first, and `stableInsert` places each before all its ties, which all came
later in the input.  CPython's `sorted` is a stable sort, and a stable
sort's output is uniquely determined by the comparison and the input order,
so this computes exactly `sorted(..., key=..., reverse=True)` under
`candLe`. -/
def stableSort {α : Type} (le : α → α → Bool) (l : List α) : List α :=
  l.foldr (stableInsert le) []

/-- `sorted(base_game_candidates, key=..., reverse=True)`. -/
def rankCandidates (cands : List BaseCand) : List BaseCand :=
  stableSort candLe cands

/-! ## `parse_additional_release_info` (services.py lines 674-688) -/

def PLATFORM_EXCLUSIONS : List String :=
  ["NSW", "LINUX", "MACOS", "PS5", "PS4", "XBOX"]

/-- The keyword-to-type table, in source (and hence first-match) order. -/
def TYPE_MAP : List (String × String) :=
  [("CRACKFIX", "Fix"), ("DLC", "DLC"), ("UPDATE", "Update"),
   ("PATCH", "Update"), ("FIX", "Fix"), ("TRAINER", "Trainer")]

/-- `parse_additional_release_info(release_name)`: reject non-PC platform
tokens, then return the type of the first table keyword that occurs
space-delimited inside (or space-preceded at the end of) the uppercased
name. -/
def parseAdditionalReleaseInfo (releaseName : String) : Option String :=
  let nameUpper := sepToSpace ['.', '_', '-'] (strUpper releaseName)
  let keywordSet := pySplit nameUpper
  if PLATFORM_EXCLUSIONS.any (fun p => decide (p ∈ keywordSet)) then Option.none
  else
    (TYPE_MAP.find? (fun kv =>
      strContains nameUpper (" " ++ kv.1 ++ " ") ||
        strEndsWith nameUpper (" " ++ kv.1))).map (fun kv => kv.2)

/-! ## Persistent store (models.py) and the reconciliation pass
(services.py lines 421-606) -/

/-- The `Game` columns the engine reads or writes. -/
@[ext]
structure GameRec where
  official_title : String
  release_date : Option String
  status : String
  release_name : Option String
  release_group : Option String
  release_type : Option String
  nfo_path : Option String
  nfo_img_path : Option String
  needs_release_check : Bool
deriving DecidableEq, Repr

/-- An `AlternativeRelease` row for the game. -/
structure AltRow where
  release_name : String
  source : String
  nfo_path : Option String
  nfo_img_path : Option String
deriving DecidableEq, Repr

/-- An `AdditionalRelease` row for the game. -/
structure AddRow where
  release_name : String
  release_type : String
  source : String
deriving DecidableEq, Repr

/-- The slice of the database the pass touches for one game. -/
@[ext]
structure Store where
  game : GameRec
  alternatives : List AltRow
  additionals : List AddRow
deriving DecidableEq, Repr

/-- The external `fetch_and_save_nfo` capability: release name to the
`(nfo_path, nfo_img_path)` pair; network effects are outside the model. -/
abbrev NfoFetcher := String → Option String × Option String

def mkAltRow (nfo : NfoFetcher) (c : BaseCand) : AltRow :=
  { release_name := c.name, source := c.source,
    nfo_path := (nfo c.name).1, nfo_img_path := (nfo c.name).2 }

/-- The release names of the game's `AlternativeRelease` rows. -/
def altNames (rows : List AltRow) : List String :=
  rows.map (fun r => r.release_name)

/-- The alternatives appended for an `Imported` game: ranked candidates whose
clean name is not yet recorded. -/
def importedNewAlts (nfo : NfoFetcher) (cands : List BaseCand)
    (existing : List String) : List AltRow :=
  ((rankCandidates cands).filter (fun c => decide (c.name ∉ existing))).map (mkAltRow nfo)

/-- STEP 3 of the pass: rank the surviving base candidates; an `Imported`
game keeps its primary fields and only gains alternatives it does not already
record; otherwise the head of the ranking becomes the primary release, the
status becomes the tier-specific cracked state, and the alternative rows are
replaced by the remainder of the ranking. -/
def processBase (nfo : NfoFetcher) (cands : List BaseCand) (s : Store) : Store :=
  if cands.isEmpty then s
  else
    let sorted := rankCandidates cands
    if s.game.status = "Imported" then
      { s with alternatives := s.alternatives ++
          importedNewAlts nfo cands (altNames s.alternatives) }
    else
      match sorted with
      | [] => s
      | primary :: rest =>
        { s with
          game := { s.game with
            release_name := some primary.name,
            release_group := some primary.source,
            release_type := some primary.rtype,
            status := if primary.rtype = "Scene" then "Cracked (Scene)" else "Cracked (P2P)",
            nfo_path := (nfo primary.name).1,
            nfo_img_path := (nfo primary.name).2 },
          alternatives := rest.map (mkAltRow nfo) }

/-- The `AdditionalRelease` rows STEP 4 of the pass inserts, given the set of
release names already recorded. -/
def addonRows (addOns : List (String × String)) (existing : List String) : List AddRow :=
  addOns.filterMap (fun a =>
    if a.1 ∈ existing then Option.none
    else (parseAdditionalReleaseInfo a.1).map (fun t =>
      { release_name := a.1, release_type := t, source := a.2 : AddRow }))

/-- The release names of the game's `AdditionalRelease` rows. -/
def addNames (rows : List AddRow) : List String :=
  rows.map (fun r => r.release_name)

/-- STEP 4 of the pass: append an `AdditionalRelease` row for every add-on
whose clean name is not already recorded and whose type parses; the
already-recorded set is read once, as in the source. -/
def processAddons (addOns : List (String × String)) (s : Store) : Store :=
  { s with additionals := s.additionals ++ addonRows addOns (addNames s.additionals) }

/-- `game.needs_release_check = False` at the end of the pass. -/
def clearFlag (s : Store) : Store :=
  { s with game := { s.game with needs_release_check := false } }

/-- `process_all_releases_for_game`: the feed is the merged `all_releases`
dict in insertion order (STEP 1 is the source adapters, outside the model).
An empty feed only reverts a transient `Processing` status; otherwise the
candidates are categorized, base games and add-ons are processed, and the
`needs_release_check` flag is cleared before the single commit. -/
def processAllReleasesForGame (nfo : NfoFetcher) (feed : List Candidate) (s : Store) : Store :=
  if feed.isEmpty then
    { s with game := { s.game with
        status := if s.game.status = "Processing" then "Monitoring" else s.game.status } }
  else
    clearFlag (processAddons (feed.filterMap toAddon?)
      (processBase nfo (feed.filterMap (toBase? s.game.official_title s.game.release_date)) s))

/-! ## `process_release_check_queue` (jobs.py lines 88-117) -/

/-- The immediate-check queue worker for the claimed game: the
`needs_release_check` flag is flipped off and committed before the engine
runs; `engineCompletes = false` models `process_all_releases_for_game`
raising (for instance a failed commit), in which case only the already
committed flag flip persists. -/
def processReleaseCheckQueue (nfo : NfoFetcher) (feed : List Candidate)
    (engineCompletes : Bool) (s : Store) : Store :=
  if s.game.needs_release_check then
    let s1 : Store := { s with game := { s.game with needs_release_check := false } }
    if engineCompletes then processAllReleasesForGame nfo feed s1 else s1
  else s

/-! ## Order lemmas for the ranking -/

lemma keyLe_refl (k : SortKey) : keyLe k k = true := by
  simp [keyLe]

lemma keyLe_total (k1 k2 : SortKey) : (keyLe k1 k2 || keyLe k2 k1) = true := by
  obtain ⟨b1, i1, n1⟩ := k1
  obtain ⟨b2, i2, n2⟩ := k2
  simp only [keyLe, boolLe, Bool.or_eq_true, decide_eq_true_eq]
  rcases b1 <;> rcases b2 <;> simp <;> split_ifs <;> omega

lemma keyLe_trans (a b c : SortKey) (h1 : keyLe a b = true) (h2 : keyLe b c = true) :
    keyLe a c = true := by
  obtain ⟨b1, i1, n1⟩ := a
  obtain ⟨b2, i2, n2⟩ := b
  obtain ⟨b3, i3, n3⟩ := c
  simp only [keyLe, boolLe] at *
  rcases b1 <;> rcases b2 <;> rcases b3 <;>
    split_ifs at h1 h2 ⊢ <;> simp_all <;> omega

lemma candLe_total (a b : BaseCand) : (candLe a b || candLe b a) = true :=
  keyLe_total (sortKey b) (sortKey a)

lemma candLe_trans (a b c : BaseCand) (h1 : candLe a b = true) (h2 : candLe b c = true) :
    candLe a c = true :=
  keyLe_trans _ _ _ h2 h1

lemma stableInsert_perm {α : Type} (le : α → α → Bool) (a : α) (l : List α) :
    (stableInsert le a l).Perm (a :: l) := by
  induction l with
  | nil => exact List.Perm.refl _
  | cons b bs ih =>
    unfold stableInsert
    split_ifs
    · exact (ih.cons b).trans (List.Perm.swap a b bs)
    · exact List.Perm.refl _

lemma stableSort_perm {α : Type} (le : α → α → Bool) (l : List α) :
    (stableSort le l).Perm l := by
  induction l with
  | nil => exact List.Perm.refl _
  | cons a as ih =>
    exact (stableInsert_perm le a (stableSort le as)).trans (ih.cons a)

lemma stableInsert_sorted {α : Type} (le : α → α → Bool)
    (trans : ∀ x y z, le x y = true → le y z = true → le x z = true)
    (total : ∀ x y, (le x y || le y x) = true)
    (a : α) (l : List α) (hl : l.Pairwise (fun x y => le x y = true)) :
    (stableInsert le a l).Pairwise (fun x y => le x y = true) := by
  induction l with
  | nil => simp [stableInsert]
  | cons b bs ih =>
    rw [List.pairwise_cons] at hl
    unfold stableInsert
    split_ifs with hba
    · rw [Bool.and_eq_true] at hba
      rw [List.pairwise_cons]
      refine ⟨?_, ih hl.2⟩
      intro x hx
      rcases List.mem_cons.mp ((stableInsert_perm le a bs).mem_iff.mp hx) with h | h
      · subst h; exact hba.1
      · exact hl.1 x h
    · rw [List.pairwise_cons]
      have hab : le a b = true := by
        cases hab : le a b with
        | true => rfl
        | false =>
          have ht := total a b
          rw [hab, Bool.false_or] at ht
          exact absurd (by rw [ht, hab]; rfl) hba
      refine ⟨?_, List.pairwise_cons.mpr hl⟩
      intro x hx
      rcases List.mem_cons.mp hx with h | h
      · subst h; exact hab
      · exact trans a b x hab (hl.1 x h)

lemma stableSort_sorted {α : Type} (le : α → α → Bool)
    (trans : ∀ x y z, le x y = true → le y z = true → le x z = true)
    (total : ∀ x y, (le x y || le y x) = true) (l : List α) :
    (stableSort le l).Pairwise (fun x y => le x y = true) := by
  induction l with
  | nil => simp [stableSort]
  | cons a as ih => exact stableInsert_sorted le trans total a _ ih

lemma rank_perm (cands : List BaseCand) : (rankCandidates cands).Perm cands :=
  stableSort_perm candLe cands

lemma rank_sorted (cands : List BaseCand) :
    List.Pairwise (fun a b => candLe a b = true) (rankCandidates cands) :=
  stableSort_sorted candLe candLe_trans candLe_total cands

/-- The head of the descending ranking exists and carries a maximal sort
key. -/
lemma rank_head_max (cands : List BaseCand) (hne : cands ≠ []) :
    ∃ w rest, rankCandidates cands = w :: rest ∧ w ∈ cands ∧
      (∀ c ∈ cands, keyLe (sortKey c) (sortKey w) = true) ∧
      (w :: rest).Perm cands := by
  have hperm := rank_perm cands
  have hsorted := rank_sorted cands
  match hr : rankCandidates cands with
  | [] =>
    rw [hr] at hperm
    exact absurd hperm.symm.eq_nil hne
  | w :: rest =>
    rw [hr] at hperm hsorted
    refine ⟨w, rest, rfl, hperm.mem_iff.mp (List.mem_cons_self _ _), ?_, hperm⟩
    intro c hc
    rcases List.mem_cons.mp (hperm.mem_iff.mpr hc) with h | h
    · subst h; exact keyLe_refl _
    · exact (List.pairwise_cons.mp hsorted).1 c h

/-! ## Structural lemmas about the pass -/

lemma processBase_nil (nfo : NfoFetcher) (s : Store) : processBase nfo [] s = s := rfl

lemma processAddons_game (ao : List (String × String)) (s : Store) :
    (processAddons ao s).game = s.game := rfl

lemma processAddons_alternatives (ao : List (String × String)) (s : Store) :
    (processAddons ao s).alternatives = s.alternatives := rfl

lemma processBase_frame (nfo : NfoFetcher) (cands : List BaseCand) (s : Store) :
    (processBase nfo cands s).game.official_title = s.game.official_title ∧
    (processBase nfo cands s).game.release_date = s.game.release_date ∧
    (processBase nfo cands s).game.needs_release_check = s.game.needs_release_check ∧
    (processBase nfo cands s).additionals = s.additionals := by
  simp only [processBase]
  split_ifs <;> try exact ⟨rfl, rfl, rfl, rfl⟩
  rcases rankCandidates cands with _ | ⟨p, rest⟩ <;> exact ⟨rfl, rfl, rfl, rfl⟩

lemma processBase_imported (nfo : NfoFetcher) (cands : List BaseCand) (s : Store)
    (hC : cands ≠ []) (hs : s.game.status = "Imported") :
    processBase nfo cands s =
      { s with alternatives := s.alternatives ++
          importedNewAlts nfo cands (altNames s.alternatives) } := by
  simp only [processBase, List.isEmpty_iff, hC, if_false, hs, if_true]

lemma processBase_primary (nfo : NfoFetcher) (cands : List BaseCand) (s : Store)
    (p : BaseCand) (rest : List BaseCand)
    (hs : s.game.status ≠ "Imported") (hr : rankCandidates cands = p :: rest) :
    processBase nfo cands s =
      { s with
        game := { s.game with
          release_name := some p.name,
          release_group := some p.source,
          release_type := some p.rtype,
          status := if p.rtype = "Scene" then "Cracked (Scene)" else "Cracked (P2P)",
          nfo_path := (nfo p.name).1,
          nfo_img_path := (nfo p.name).2 },
        alternatives := rest.map (mkAltRow nfo) } := by
  have hC : cands ≠ [] := by
    intro h
    rw [h] at hr
    simp [rankCandidates, stableSort] at hr
  simp only [processBase, List.isEmpty_iff, hC, if_false, hs, hr]

lemma pass_cons (nfo : NfoFetcher) (c : Candidate) (cs : List Candidate) (s : Store) :
    processAllReleasesForGame nfo (c :: cs) s =
      clearFlag (processAddons ((c :: cs).filterMap toAddon?)
        (processBase nfo
          ((c :: cs).filterMap (toBase? s.game.official_title s.game.release_date)) s)) := rfl

/-! ## Idempotence helper lemmas -/

lemma altNames_append (l1 l2 : List AltRow) :
    altNames (l1 ++ l2) = altNames l1 ++ altNames l2 :=
  List.map_append _ l1 l2

lemma addNames_append (l1 l2 : List AddRow) :
    addNames (l1 ++ l2) = addNames l1 ++ addNames l2 :=
  List.map_append _ l1 l2

lemma addonRows_eq_nil (A : List (String × String)) (ex : List String)
    (h : ∀ a ∈ A, a.1 ∈ ex ∨ parseAdditionalReleaseInfo a.1 = Option.none) :
    addonRows A ex = [] := by
  rw [addonRows, List.filterMap_eq_nil_iff]
  intro a ha
  rcases h a ha with h' | h' <;> simp [h']

lemma mem_addonRows_names (A : List (String × String)) (ex : List String)
    (a : String × String) (ha : a ∈ A) (hnotex : a.1 ∉ ex) (t : String)
    (hp : parseAdditionalReleaseInfo a.1 = some t) :
    a.1 ∈ addNames (addonRows A ex) := by
  unfold addNames addonRows
  refine List.mem_map.mpr ⟨⟨a.1, t, a.2⟩, ?_, rfl⟩
  refine List.mem_filterMap.mpr ⟨a, ha, ?_⟩
  simp [hnotex, hp]

lemma addonRows_twice (A : List (String × String)) (ex : List String) :
    addonRows A (ex ++ addNames (addonRows A ex)) = [] := by
  apply addonRows_eq_nil
  intro a ha
  by_cases hex : a.1 ∈ ex
  · exact Or.inl (List.mem_append.mpr (Or.inl hex))
  · cases hp : parseAdditionalReleaseInfo a.1 with
    | none => exact Or.inr rfl
    | some t =>
      exact Or.inl (List.mem_append.mpr (Or.inr (mem_addonRows_names A ex a ha hex t hp)))

lemma importedNewAlts_eq_nil (nfo : NfoFetcher) (cands : List BaseCand) (ex : List String)
    (h : ∀ c ∈ rankCandidates cands, c.name ∈ ex) :
    importedNewAlts nfo cands ex = [] := by
  unfold importedNewAlts
  rw [List.map_eq_nil_iff, List.filter_eq_nil_iff]
  intro c hc
  simp [h c hc]

lemma mem_importedNewAlts_names (nfo : NfoFetcher) (cands : List BaseCand) (ex : List String)
    (c : BaseCand) (hc : c ∈ rankCandidates cands) (hex : c.name ∉ ex) :
    c.name ∈ altNames (importedNewAlts nfo cands ex) := by
  unfold altNames importedNewAlts
  exact List.mem_map.mpr ⟨mkAltRow nfo c,
    List.mem_map.mpr ⟨c, List.mem_filter.mpr ⟨hc, by simp [hex]⟩, rfl⟩, rfl⟩

lemma importedNewAlts_twice (nfo : NfoFetcher) (cands : List BaseCand) (ex : List String) :
    importedNewAlts nfo cands (ex ++ altNames (importedNewAlts nfo cands ex)) = [] := by
  apply importedNewAlts_eq_nil
  intro c hc
  by_cases hex : c.name ∈ ex
  · exact List.mem_append.mpr (Or.inl hex)
  · exact List.mem_append.mpr (Or.inr (mem_importedNewAlts_names nfo cands ex c hc hex))

lemma flagOff_id (s : Store) (h : s.game.needs_release_check = false) :
    { s with game := { s.game with needs_release_check := false } } = s := by
  cases s with
  | mk g alts adds =>
    cases g
    simp_all

lemma pass_title_date (nfo : NfoFetcher) (feed : List Candidate) (s : Store) :
    (processAllReleasesForGame nfo feed s).game.official_title = s.game.official_title ∧
    (processAllReleasesForGame nfo feed s).game.release_date = s.game.release_date := by
  rcases feed with _ | ⟨c, cs⟩
  · exact ⟨rfl, rfl⟩
  · rw [pass_cons]
    exact ⟨(processBase_frame nfo _ s).1, (processBase_frame nfo _ s).2.1⟩

lemma processAddons_stable (A : List (String × String)) (x : Store)
    (h : addonRows A (addNames x.additionals) = []) : processAddons A x = x := by
  unfold processAddons
  rw [h, List.append_nil]

lemma pass_addons_round2 (A : List (String × String)) (x : Store) :
    processAddons A (clearFlag (processAddons A x)) = clearFlag (processAddons A x) := by
  apply processAddons_stable
  show addonRows A (addNames (x.additionals ++ addonRows A (addNames x.additionals))) = []
  rw [addNames_append]
  exact addonRows_twice A (addNames x.additionals)

lemma processBase_stable_imported (nfo : NfoFetcher) (C : List BaseCand) (r : Store)
    (hC : C ≠ []) (hs : r.game.status = "Imported")
    (h : importedNewAlts nfo C (altNames r.alternatives) = []) :
    processBase nfo C r = r := by
  rw [processBase_imported nfo C r hC hs, h, List.append_nil]

lemma clearFlag_clearFlag (x : Store) : clearFlag (clearFlag x) = clearFlag x := rfl

lemma pass_idem (nfo : NfoFetcher) (feed : List Candidate) (s : Store) :
    processAllReleasesForGame nfo feed (processAllReleasesForGame nfo feed s) =
      processAllReleasesForGame nfo feed s := by
  rcases feed with _ | ⟨c, cs⟩
  · by_cases hp : s.game.status = "Processing" <;>
      · unfold processAllReleasesForGame
        simp [hp]
  · have htd := pass_title_date nfo (c :: cs) s
    rw [pass_cons nfo c cs (processAllReleasesForGame nfo (c :: cs) s), htd.1, htd.2,
        pass_cons nfo c cs s]
    set C := (c :: cs).filterMap (toBase? s.game.official_title s.game.release_date) with hCdef
    set A := (c :: cs).filterMap toAddon? with hAdef
    by_cases hC : C = []
    · rw [hC]
      simp only [processBase_nil]
      rw [pass_addons_round2, clearFlag_clearFlag]
    · by_cases hs : s.game.status = "Imported"
      · rw [processBase_imported nfo C s hC hs]
        set B : Store :=
          { s with alternatives := s.alternatives ++ importedNewAlts nfo C (altNames s.alternatives) }
          with hBdef
        set r := clearFlag (processAddons A B) with hrdef
        have hsr : r.game.status = "Imported" := hs
        have hnil : importedNewAlts nfo C (altNames r.alternatives) = [] := by
          rw [hrdef, hBdef]
          show importedNewAlts nfo C
            (altNames (s.alternatives ++ importedNewAlts nfo C (altNames s.alternatives))) = []
          rw [altNames_append]
          exact importedNewAlts_twice nfo C (altNames s.alternatives)
        rw [processBase_stable_imported nfo C r hC hsr hnil, hrdef, pass_addons_round2,
            clearFlag_clearFlag]
      · obtain ⟨p, rest, hr, _, _, _⟩ := rank_head_max C hC
        rw [processBase_primary nfo C s p rest hs hr]
        set B : Store :=
          { s with
            game := { s.game with
              release_name := some p.name,
              release_group := some p.source,
              release_type := some p.rtype,
              status := if p.rtype = "Scene" then "Cracked (Scene)" else "Cracked (P2P)",
              nfo_path := (nfo p.name).1,
              nfo_img_path := (nfo p.name).2 },
            alternatives := rest.map (mkAltRow nfo) } with hBdef
        set r := clearFlag (processAddons A B) with hrdef
        have hsr : r.game.status ≠ "Imported" := by
          show (if p.rtype = "Scene" then "Cracked (Scene)" else "Cracked (P2P)") ≠ "Imported"
          split_ifs <;> decide
        rw [processBase_primary nfo C r p rest hsr hr]
        have hback : ({ r with
            game := { r.game with
              release_name := some p.name,
              release_group := some p.source,
              release_type := some p.rtype,
              status := if p.rtype = "Scene" then "Cracked (Scene)" else "Cracked (P2P)",
              nfo_path := (nfo p.name).1,
              nfo_img_path := (nfo p.name).2 },
            alternatives := rest.map (mkAltRow nfo) } : Store) = r := rfl
        rw [hback, hrdef, pass_addons_round2, clearFlag_clearFlag]

/-! ## Classification characterization and pass case analysis -/

lemma toBase?_eq_some_iff (title : String) (rd : Option String) (c : Candidate) (bc : BaseCand) :
    toBase? title rd c = some bc ↔
      (hitsAny TYPE_BLOCKED_KEYWORDS (upperWords (htmlUnescape c.name)) = false ∧
       hitsAny MOVIE_KEYWORDS (upperWords (htmlUnescape c.name)) = false ∧
       isValidGameMatchPass title (htmlUnescape c.name) = true ∧
       0 ≤ calcRelevancyScore rd (optTs c.timestamp) ∧
       bc = { name := htmlUnescape c.name, source := c.source,
              rtype := detectType (htmlUnescape c.name) c.rtype,
              timestamp := c.timestamp,
              score := calcRelevancyScore rd (optTs c.timestamp),
              is_pc := ! hitsAny PLATFORM_KEYWORDS (upperWords (htmlUnescape c.name)) }) := by
  constructor
  · intro h
    simp only [toBase?] at h
    split_ifs at h with h1 h2 h3 h4
    cases h
    rw [Bool.not_eq_true] at h1 h2
    exact ⟨h1, h2, by simpa using h3, Int.not_lt.mp h4, rfl⟩
  · rintro ⟨hb, hm, hmatch, hscore, rfl⟩
    simp [toBase?, hb, hm, hmatch, Int.not_lt.mpr hscore]

lemma toAddon?_eq_some_iff (c : Candidate) (a : String × String) :
    toAddon? c = some a ↔
      (hitsAny TYPE_BLOCKED_KEYWORDS (upperWords (htmlUnescape c.name)) = true ∧
       a = (htmlUnescape c.name, c.source)) := by
  simp only [toAddon?]
  split_ifs with h1
  · simp [h1, eq_comm]
  · simp [h1]

lemma pass_spec (nfo : NfoFetcher) (feed : List Candidate) (s : Store) :
    (feed = [] ∧ processAllReleasesForGame nfo feed s =
        { s with game := { s.game with
            status := if s.game.status = "Processing" then "Monitoring" else s.game.status } }) ∨
    (∃ C, C = feed.filterMap (toBase? s.game.official_title s.game.release_date) ∧ feed ≠ [] ∧
      ((C = [] ∧ processAllReleasesForGame nfo feed s =
          clearFlag (processAddons (feed.filterMap toAddon?) s)) ∨
       (C ≠ [] ∧ s.game.status = "Imported" ∧
          processAllReleasesForGame nfo feed s =
            clearFlag (processAddons (feed.filterMap toAddon?)
              { s with alternatives :=
                  s.alternatives ++ importedNewAlts nfo C (altNames s.alternatives) })) ∨
       (s.game.status ≠ "Imported" ∧ ∃ p rest, rankCandidates C = p :: rest ∧
          processAllReleasesForGame nfo feed s =
            clearFlag (processAddons (feed.filterMap toAddon?)
              { s with
                game := { s.game with
                  release_name := some p.name,
                  release_group := some p.source,
                  release_type := some p.rtype,
                  status := if p.rtype = "Scene" then "Cracked (Scene)" else "Cracked (P2P)",
                  nfo_path := (nfo p.name).1,
                  nfo_img_path := (nfo p.name).2 },
                alternatives := rest.map (mkAltRow nfo) })))) := by
  rcases feed with _ | ⟨c, cs⟩
  · exact Or.inl ⟨rfl, rfl⟩
  · rw [pass_cons nfo c cs s]
    set C := (c :: cs).filterMap (toBase? s.game.official_title s.game.release_date) with hCdef
    refine Or.inr ⟨C, hCdef, List.cons_ne_nil c cs, ?_⟩
    by_cases hC : C = []
    · refine Or.inl ⟨hC, ?_⟩
      rw [hC, processBase_nil]
    · by_cases hs : s.game.status = "Imported"
      · refine Or.inr (Or.inl ⟨hC, hs, ?_⟩)
        rw [processBase_imported nfo C s hC hs]
      · obtain ⟨p, rest, hr, -, -, -⟩ := rank_head_max C hC
        refine Or.inr (Or.inr ⟨hs, p, rest, hr, ?_⟩)
        rw [processBase_primary nfo C s p rest hs hr]

/-! ## Duplicate-freedom of the written rows -/

/-- The clean (unescaped) names of the feed entries, i.e. the keys of the
`all_releases` dict after `html.unescape`. -/
def cleanNames (feed : List Candidate) : List String :=
  feed.map (fun c => htmlUnescape c.name)

lemma toBase?_name (t : String) (rd : Option String) (c : Candidate) (bc : BaseCand)
    (h : toBase? t rd c = some bc) : bc.name = htmlUnescape c.name := by
  rcases (toBase?_eq_some_iff t rd c bc).mp h with ⟨-, -, -, -, rfl⟩
  rfl

lemma toAddon?_name (c : Candidate) (a : String × String) (h : toAddon? c = some a) :
    a.1 = htmlUnescape c.name := by
  rcases (toAddon?_eq_some_iff c a).mp h with ⟨-, rfl⟩
  rfl

lemma filterMap_names_sublist {α β : Type} (f : α → Option β) (nm : β → String)
    (key : α → String) (h : ∀ a b, f a = some b → nm b = key a) (l : List α) :
    ((l.filterMap f).map nm).Sublist (l.map key) := by
  induction l with
  | nil => simp
  | cons a l ih =>
    rw [List.filterMap_cons, List.map_cons]
    cases hfa : f a with
    | none => exact ih.cons _
    | some b =>
      rw [List.map_cons, h a b hfa]
      exact ih.cons₂ _

lemma base_names_sublist (t : String) (rd : Option String) (feed : List Candidate) :
    ((feed.filterMap (toBase? t rd)).map (fun b => b.name)).Sublist (cleanNames feed) :=
  filterMap_names_sublist _ _ _ (toBase?_name t rd) feed

lemma addon_names_sublist (feed : List Candidate) :
    ((feed.filterMap toAddon?).map (fun a => a.1)).Sublist (cleanNames feed) :=
  filterMap_names_sublist _ _ _ toAddon?_name feed

lemma addonRows_names_sublist (A : List (String × String)) (ex : List String) :
    (addNames (addonRows A ex)).Sublist (A.map (fun a => a.1)) := by
  unfold addNames addonRows
  apply filterMap_names_sublist
  intro a row h
  split_ifs at h with hin
  cases hp : parseAdditionalReleaseInfo a.1 with
  | none => rw [hp] at h; cases h
  | some t =>
    rw [hp] at h
    injection h with h'
    cases h'
    rfl

lemma addonRows_not_mem_ex (A : List (String × String)) (ex : List String) (row : AddRow)
    (h : row ∈ addonRows A ex) : row.release_name ∉ ex := by
  rcases List.mem_filterMap.mp h with ⟨a, -, hfa⟩
  split_ifs at hfa with hin
  cases hp : parseAdditionalReleaseInfo a.1 with
  | none => rw [hp] at hfa; cases hfa
  | some t =>
    rw [hp] at hfa
    injection hfa with h'
    cases h'
    exact hin

lemma addonRows_names_not_ex (A : List (String × String)) (ex : List String) (x : String)
    (h : x ∈ addNames (addonRows A ex)) : x ∉ ex := by
  unfold addNames at h
  rcases List.mem_map.mp h with ⟨row, hrow, rfl⟩
  exact addonRows_not_mem_ex A ex row hrow

lemma importedNewAlts_names_sublist (nfo : NfoFetcher) (cands : List BaseCand)
    (ex : List String) :
    (altNames (importedNewAlts nfo cands ex)).Sublist
      ((rankCandidates cands).map (fun b => b.name)) := by
  show ((((rankCandidates cands).filter _).map (mkAltRow nfo)).map
    (fun r => r.release_name)).Sublist _
  rw [List.map_map]
  exact (List.filter_sublist _).map _

lemma importedNewAlts_names_not_ex (nfo : NfoFetcher) (cands : List BaseCand)
    (ex : List String) (x : String) (h : x ∈ altNames (importedNewAlts nfo cands ex)) :
    x ∉ ex := by
  unfold altNames importedNewAlts at h
  rw [List.map_map] at h
  rcases List.mem_map.mp h with ⟨c, hc, rfl⟩
  exact of_decide_eq_true (List.mem_filter.mp hc).2

lemma pass_alternatives_nodup (nfo : NfoFetcher) (feed : List Candidate) (s : Store)
    (hfeed : (cleanNames feed).Nodup) (halts : (altNames s.alternatives).Nodup) :
    (altNames (processAllReleasesForGame nfo feed s).alternatives).Nodup := by
  rcases pass_spec nfo feed s with ⟨-, heq⟩ | ⟨C, hCdef, -, hcase⟩
  · rw [heq]; exact halts
  · have hCnodup : (C.map (fun b => b.name)).Nodup := by
      rw [hCdef]
      exact (base_names_sublist _ _ feed).nodup hfeed
    have hRnodup : ((rankCandidates C).map (fun b => b.name)).Nodup :=
      (((rank_perm C).map _).nodup_iff).mpr hCnodup
    rcases hcase with ⟨-, heq⟩ | ⟨-, -, heq⟩ | ⟨-, p, rest, hr, heq⟩
    · rw [heq]; exact halts
    · rw [heq]
      show (altNames (s.alternatives ++
        importedNewAlts nfo C (altNames s.alternatives))).Nodup
      rw [altNames_append, List.nodup_append]
      refine ⟨halts, (importedNewAlts_names_sublist nfo C _).nodup hRnodup, ?_⟩
      intro x hx1 hx2
      exact importedNewAlts_names_not_ex nfo C _ x hx2 hx1
    · rw [heq]
      show (altNames (rest.map (mkAltRow nfo))).Nodup
      rw [hr, List.map_cons, List.nodup_cons] at hRnodup
      show ((rest.map (mkAltRow nfo)).map (fun r => r.release_name)).Nodup
      rw [List.map_map]
      exact hRnodup.2

lemma pass_additionals_nodup (nfo : NfoFetcher) (feed : List Candidate) (s : Store)
    (hfeed : (cleanNames feed).Nodup) (hadds : (addNames s.additionals).Nodup) :
    (addNames (processAllReleasesForGame nfo feed s).additionals).Nodup := by
  have hA : ((feed.filterMap toAddon?).map (fun a => a.1)).Nodup :=
    (addon_names_sublist feed).nodup hfeed
  have key : ∀ x : Store, x.additionals = s.additionals →
      (addNames (clearFlag (processAddons (feed.filterMap toAddon?) x)).additionals).Nodup := by
    intro x hx
    show (addNames (x.additionals ++
      addonRows (feed.filterMap toAddon?) (addNames x.additionals))).Nodup
    rw [hx, addNames_append, List.nodup_append]
    exact ⟨hadds, (addonRows_names_sublist _ _).nodup hA,
      fun y hy1 hy2 => addonRows_names_not_ex _ _ y hy2 hy1⟩
  rcases pass_spec nfo feed s with ⟨-, heq⟩ | ⟨C, hCdef, -, hcase⟩
  · rw [heq]; exact hadds
  · rcases hcase with ⟨-, heq⟩ | ⟨-, -, heq⟩ | ⟨-, p, rest, hr, heq⟩ <;> rw [heq]
    · exact key s rfl
    · exact key _ rfl
    · exact key _ rfl

/-! # Claims -/

/-! ## Concrete scenario data -/

/-- An artifact fetcher that finds nothing; the scenarios do not depend on
NFO content. -/
def demoNfo : NfoFetcher := fun _ => (Option.none, Option.none)

/-- A freshly monitored game record. -/
def monitoringGame (title : String) (rd : Option String) : GameRec :=
  { official_title := title, release_date := rd, status := "Monitoring",
    release_name := Option.none, release_group := Option.none,
    release_type := Option.none, nfo_path := Option.none,
    nfo_img_path := Option.none, needs_release_check := true }

def monitoringStore (title : String) (rd : Option String) : Store :=
  { game := monitoringGame title rd, alternatives := [], additionals := [] }

/-- An already-imported game record holding a primary release. -/
def importedGame : GameRec :=
  { official_title := "Hades II", release_date := some "2024-09-25",
    status := "Imported", release_name := some "Hades.II-TENOKE",
    release_group := some "TENOKE", release_type := some "Scene",
    nfo_path := Option.none, nfo_img_path := Option.none,
    needs_release_check := true }

/-- An alternative row already recorded for the imported game. -/
def fitgirlAltRow : AltRow :=
  { release_name := "Hades.II.Repack-FitGirl", source := "FitGirl",
    nfo_path := Option.none, nfo_img_path := Option.none }

/-- An already-imported game holding a primary release and one recorded
alternative. -/
def importedStore : Store :=
  { game := importedGame, alternatives := [fitgirlAltRow], additionals := [] }

/-- The "Hades II" store of end-to-end scenario 1. -/
def hadesStore : Store := monitoringStore "Hades II" (some "2024-09-25")

/-- The scenario-1 feed: a FitGirl repack seen 2024-09-26 and a TENOKE scene
release seen 2024-09-25 (timestamps in epoch seconds, UTC). -/
def hadesFeed : List Candidate :=
  [{ name := "Hades.II.Repack-FitGirl", source := "FitGirl", rtype := "P2P",
     timestamp := some 1727308800 },
   { name := "Hades.II-TENOKE", source := "TENOKE", rtype := "Scene",
     timestamp := some 1727222400 }]

/-! ## C1 -/

/-- C1: a reconciliation pass on a game whose status is `Imported` leaves the
primary release fields and the status unchanged, deletes no existing
`AlternativeRelease` row, and inserts only rows whose release name is not
already recorded for the game. -/
theorem imported_reconcile_preserves_primary (nfo : NfoFetcher) (feed : List Candidate)
    (s : Store) (h : s.game.status = "Imported") :
    (processAllReleasesForGame nfo feed s).game.release_name = s.game.release_name ∧
    (processAllReleasesForGame nfo feed s).game.release_group = s.game.release_group ∧
    (processAllReleasesForGame nfo feed s).game.release_type = s.game.release_type ∧
    (processAllReleasesForGame nfo feed s).game.status = s.game.status ∧
    ∃ newAlts,
      (processAllReleasesForGame nfo feed s).alternatives = s.alternatives ++ newAlts ∧
      ∀ r ∈ newAlts, r.release_name ∉ altNames s.alternatives := by
  rcases pass_spec nfo feed s with ⟨-, heq⟩ | ⟨C, -, -, hcase⟩
  · rw [heq]
    have hnp : ¬ s.game.status = "Processing" := by rw [h]; decide
    refine ⟨rfl, rfl, rfl, ?_, [], (List.append_nil _).symm, by simp⟩
    show (if s.game.status = "Processing" then "Monitoring" else s.game.status) =
      s.game.status
    rw [if_neg hnp]
  · rcases hcase with ⟨-, heq⟩ | ⟨-, -, heq⟩ | ⟨hs, -, -, -, -⟩
    · rw [heq]
      exact ⟨rfl, rfl, rfl, rfl, [], (List.append_nil _).symm, by simp⟩
    · rw [heq]
      refine ⟨rfl, rfl, rfl, rfl, importedNewAlts nfo C (altNames s.alternatives), rfl, ?_⟩
      intro r hr
      exact importedNewAlts_names_not_ex nfo C (altNames s.alternatives) r.release_name
        (List.mem_map.mpr ⟨r, hr, rfl⟩)
    · exact absurd h hs

/-- C1 witness: the `Imported` Hades II store scanned against the scenario
feed. -/
theorem imported_reconcile_preserves_primary_witness :
    (processAllReleasesForGame demoNfo hadesFeed importedStore).game.release_name =
      importedStore.game.release_name ∧
    (processAllReleasesForGame demoNfo hadesFeed importedStore).game.release_group =
      importedStore.game.release_group ∧
    (processAllReleasesForGame demoNfo hadesFeed importedStore).game.release_type =
      importedStore.game.release_type ∧
    (processAllReleasesForGame demoNfo hadesFeed importedStore).game.status =
      importedStore.game.status ∧
    ∃ newAlts,
      (processAllReleasesForGame demoNfo hadesFeed importedStore).alternatives =
        importedStore.alternatives ++ newAlts ∧
      ∀ r ∈ newAlts, r.release_name ∉ altNames importedStore.alternatives :=
  imported_reconcile_preserves_primary demoNfo hadesFeed importedStore rfl

/-! ## C2 -/

/-- C2: for a non-`Imported` game with at least one surviving base-game
candidate, the candidates are ranked by is-PC, relevancy score, and tier
(descending, with the repack-group name override forcing tier `Repack`); the
head of the ranking has a maximal sort key and its name, source and tier are
written as the primary release fields; the remaining ranked candidates become
the `AlternativeRelease` rows; and the status becomes `Cracked (Scene)` for a
Scene winner and `Cracked (P2P)` otherwise (i.e. for Repack and P2P). -/
theorem primary_selection_ranking (nfo : NfoFetcher) (feed : List Candidate) (s : Store)
    (hst : s.game.status ≠ "Imported")
    (hcands : feed.filterMap (toBase? s.game.official_title s.game.release_date) ≠ []) :
    ∃ w rest,
      rankCandidates (feed.filterMap (toBase? s.game.official_title s.game.release_date)) =
        w :: rest ∧
      w ∈ feed.filterMap (toBase? s.game.official_title s.game.release_date) ∧
      (∀ c ∈ feed.filterMap (toBase? s.game.official_title s.game.release_date),
        keyLe (sortKey c) (sortKey w) = true) ∧
      (w :: rest).Perm (feed.filterMap (toBase? s.game.official_title s.game.release_date)) ∧
      (∀ c ∈ feed.filterMap (toBase? s.game.official_title s.game.release_date),
        REPACK_GROUPS.any (fun rg => strContains (strUpper c.name) rg) = true →
          c.rtype = "Repack") ∧
      (processAllReleasesForGame nfo feed s).game.release_name = some w.name ∧
      (processAllReleasesForGame nfo feed s).game.release_group = some w.source ∧
      (processAllReleasesForGame nfo feed s).game.release_type = some w.rtype ∧
      (processAllReleasesForGame nfo feed s).game.status =
        (if w.rtype = "Scene" then "Cracked (Scene)" else "Cracked (P2P)") ∧
      (processAllReleasesForGame nfo feed s).alternatives = rest.map (mkAltRow nfo) := by
  have hforce : ∀ c ∈ feed.filterMap (toBase? s.game.official_title s.game.release_date),
      REPACK_GROUPS.any (fun rg => strContains (strUpper c.name) rg) = true →
        c.rtype = "Repack" := by
    intro c hc hany
    rcases List.mem_filterMap.mp hc with ⟨c0, -, hc0⟩
    rcases (toBase?_eq_some_iff _ _ c0 c).mp hc0 with ⟨-, -, -, -, rfl⟩
    show detectType (htmlUnescape c0.name) c0.rtype = "Repack"
    unfold detectType
    rw [if_pos hany]
  rcases pass_spec nfo feed s with ⟨hnil, -⟩ | ⟨C, hCdef, -, hcase⟩
  · exfalso
    apply hcands
    rw [hnil]
    rfl
  · rw [← hCdef] at hcands hforce ⊢
    rcases hcase with ⟨hC0, -⟩ | ⟨-, hs, -⟩ | ⟨-, p, rest, hr, heq⟩
    · exact absurd hC0 hcands
    · exact absurd hs hst
    · obtain ⟨w, rest2, hr2, hmem, hmax, hperm⟩ := rank_head_max C hcands
      rw [hr] at hr2
      injection hr2 with hw hrest
      subst hw
      subst hrest
      rw [heq]
      exact ⟨p, rest, hr, hmem, hmax, hperm, hforce, rfl, rfl, rfl, rfl, rfl⟩

/-- C2 witness: end-to-end scenario 1 ("Hades II"); the TENOKE scene release
wins over the FitGirl repack and the repack becomes the only alternative. -/
theorem primary_selection_ranking_witness :
    ∃ w rest,
      rankCandidates (hadesFeed.filterMap
        (toBase? hadesStore.game.official_title hadesStore.game.release_date)) =
        w :: rest ∧
      w ∈ hadesFeed.filterMap
        (toBase? hadesStore.game.official_title hadesStore.game.release_date) ∧
      (∀ c ∈ hadesFeed.filterMap
        (toBase? hadesStore.game.official_title hadesStore.game.release_date),
        keyLe (sortKey c) (sortKey w) = true) ∧
      (w :: rest).Perm (hadesFeed.filterMap
        (toBase? hadesStore.game.official_title hadesStore.game.release_date)) ∧
      (∀ c ∈ hadesFeed.filterMap
        (toBase? hadesStore.game.official_title hadesStore.game.release_date),
        REPACK_GROUPS.any (fun rg => strContains (strUpper c.name) rg) = true →
          c.rtype = "Repack") ∧
      (processAllReleasesForGame demoNfo hadesFeed hadesStore).game.release_name =
        some w.name ∧
      (processAllReleasesForGame demoNfo hadesFeed hadesStore).game.release_group =
        some w.source ∧
      (processAllReleasesForGame demoNfo hadesFeed hadesStore).game.release_type =
        some w.rtype ∧
      (processAllReleasesForGame demoNfo hadesFeed hadesStore).game.status =
        (if w.rtype = "Scene" then "Cracked (Scene)" else "Cracked (P2P)") ∧
      (processAllReleasesForGame demoNfo hadesFeed hadesStore).alternatives =
        rest.map (mkAltRow demoNfo) :=
  primary_selection_ranking demoNfo hadesFeed hadesStore (by decide) (by decide)

/-! ## C3 -/

def multiManCand : Candidate :=
  { name := "Multi.Man-GROUP", source := "GRP", rtype := "P2P", timestamp := Option.none }

/-- C3 counterexample: the candidate "Multi.Man-GROUP" for game title
"Multi Man" passes the pass's title-match guard and becomes a base-game
candidate although its similarity is 1/2 < 0.7, so the guard is not the
similarity threshold the claim states. -/
theorem pass_guard_not_similarity_cx :
    (toBase? "Multi Man" Option.none multiManCand).isSome = true ∧
    isValidGameMatchPass "Multi Man" "Multi.Man-GROUP" = true ∧
    calculateTitleSimilarity "Multi Man" "Multi.Man-GROUP" < mkRat 7 10 := by decide

/-- C3 amended: in a reconciliation pass a candidate becomes a base-game
candidate iff its keyword set avoids the blocked and movie keyword sets, the
simplified game title occurs as a substring of the simplified clean name
(`isValidGameMatchPass`), and its relevancy score is non-negative — no
similarity threshold is consulted; the 0.8 similarity threshold of the
module-level matcher applies only inside the repack-site adapter's own
pre-filter. -/
theorem pass_guard_substring_amended :
    (∀ (title : String) (rd : Option String) (c : Candidate),
      (toBase? title rd c).isSome = true ↔
        (hitsAny TYPE_BLOCKED_KEYWORDS (upperWords (htmlUnescape c.name)) = false ∧
         hitsAny MOVIE_KEYWORDS (upperWords (htmlUnescape c.name)) = false ∧
         isValidGameMatchPass title (htmlUnescape c.name) = true ∧
         0 ≤ calcRelevancyScore rd (optTs c.timestamp))) ∧
    (∀ (gameTitle : String) (foundTitles : List String) (t : String),
      fitgirlSelect gameTitle foundTitles = some t →
        isValidGameMatch gameTitle t (mkRat 8 10) = true) := by
  constructor
  · intro title rd c
    constructor
    · intro h
      rcases Option.isSome_iff_exists.mp h with ⟨bc, hbc⟩
      rcases (toBase?_eq_some_iff title rd c bc).mp hbc with ⟨h1, h2, h3, h4, -⟩
      exact ⟨h1, h2, h3, h4⟩
    · rintro ⟨h1, h2, h3, h4⟩
      rw [(toBase?_eq_some_iff title rd c _).mpr ⟨h1, h2, h3, h4, rfl⟩]
      rfl
  · intro gameTitle foundTitles t h
    have h2 : foundTitles.find?
        (fun u => isValidGameMatch gameTitle u (mkRat 8 10)) = some t := h
    exact @List.find?_some String
      (fun u => isValidGameMatch gameTitle u (mkRat 8 10)) t foundTitles h2

/-- C3 witness: a title found by the repack-site adapter passed the 0.8
similarity matcher, and the pass accepts the Multi Man candidate through the
substring guard. -/
theorem pass_guard_substring_amended_witness :
    isValidGameMatch "Some Game" "Some Game Repack" (mkRat 8 10) = true ∧
    (toBase? "Multi Man" Option.none multiManCand).isSome = true :=
  ⟨pass_guard_substring_amended.2 "Some Game" ["Some Game Repack"] "Some Game Repack"
    (by decide),
   (pass_guard_substring_amended.1 "Multi Man" Option.none multiManCand).mpr
    (by refine ⟨by decide, by decide, by decide, by decide⟩)⟩

/-! ## C4 -/

def dq3Cand : Candidate :=
  { name := "Dragon.Quest.III.Remake-GROUP", source := "GRP", rtype := "Scene",
    timestamp := Option.none }

/-- C4 counterexample: during a reconciliation pass the title-match guard is
the substring matcher, which has no Roman-numeral restriction: title
"Dragon Quest II" does match candidate "Dragon Quest III Remake-GROUP"
(the simplified title "dragon quest ii" is a prefix of "dragon quest iii"),
and the candidate becomes a base-game candidate. -/
theorem roman_guard_absent_in_pass_cx :
    isValidGameMatchPass "Dragon Quest II" "Dragon Quest III Remake-GROUP" = true ∧
    (toBase? "Dragon Quest II" Option.none dq3Cand).isSome = true := by decide

/-- C4 amended: the Roman-numeral guard lives in the module-level matcher
`isValidGameMatch` (used by the repack-site adapter), not in the pass's
guard: there a title containing a Roman numeral II-X rejects any candidate
without the same numeral regardless of similarity, so "Dragon Quest II"
rejects "Dragon Quest III Remake-GROUP" and accepts
"Dragon Quest II Definitive Edition-GROUP". -/
theorem roman_guard_module_matcher_amended :
    (∀ (t n : String) (m : ℚ) (g : String),
      firstRoman t = some g → firstRoman n ≠ some g → isValidGameMatch t n m = false) ∧
    isValidGameMatch "Dragon Quest II" "Dragon Quest III Remake-GROUP" (mkRat 7 10) =
      false ∧
    isValidGameMatch "Dragon Quest II" "Dragon Quest II Definitive Edition-GROUP"
      (mkRat 7 10) = true := by
  refine ⟨?_, by decide, by decide⟩
  intro t n m g hg hn
  unfold isValidGameMatch
  rw [hg]
  cases hn2 : firstRoman n with
  | none => rfl
  | some r =>
    have hne : g ≠ r := fun hh => hn (by rw [hn2, hh])
    simp [hne]

/-- C4 witness: "Game II" never matches a "Game III" release through the
module-level matcher, whatever the threshold. -/
theorem roman_guard_module_matcher_amended_witness :
    isValidGameMatch "Game II" "Game III-GRP" (mkRat 1 2) = false :=
  roman_guard_module_matcher_amended.1 "Game II" "Game III-GRP" (mkRat 1 2) "II"
    (by decide) (by decide)

/-! ## C5 -/

def fixCand : Candidate :=
  { name := "Game.Fix-GRP", source := "GRP", rtype := "Scene", timestamp := Option.none }

def dlcCand : Candidate :=
  { name := "Game.DLC-GRP", source := "GRP", rtype := "Scene", timestamp := Option.none }

/-- C5 counterexample: `FIX` is in the claimed add-on keyword set, yet
`TYPE_BLOCKED_KEYWORDS` does not contain it, so "Game.Fix-GRP" is processed
as a base-game candidate and is written as the primary release. -/
theorem fix_keyword_primary_cx :
    "FIX" ∈ upperWords "Game.Fix-GRP" ∧
    (processAllReleasesForGame demoNfo [fixCand]
      (monitoringStore "Game" Option.none)).game.release_name = some "Game.Fix-GRP" := by
  decide

/-- C5 amended: the blocking add-on keyword set is `UPDATE, DLC, PATCH,
CRACKFIX, TRAINER` (without `FIX`); a name hitting it is diverted to the
add-on list and never reaches the base-game path, a written primary release
name never hits it, and the keyword-to-type table is applied in source order
(first match wins), `FIX` appearing only in the table. -/
theorem addon_partition_amended :
    (∀ (title : String) (rd : Option String) (c : Candidate),
      hitsAny TYPE_BLOCKED_KEYWORDS (upperWords (htmlUnescape c.name)) = true →
        toAddon? c = some (htmlUnescape c.name, c.source) ∧
        toBase? title rd c = Option.none) ∧
    (∀ (nfo : NfoFetcher) (feed : List Candidate) (s : Store),
      (processAllReleasesForGame nfo feed s).game.release_name = s.game.release_name ∨
      ∃ nm, (processAllReleasesForGame nfo feed s).game.release_name = some nm ∧
        hitsAny TYPE_BLOCKED_KEYWORDS (upperWords nm) = false) ∧
    parseAdditionalReleaseInfo "Game.DLC.Update-GRP" = some "DLC" ∧
    parseAdditionalReleaseInfo "Game.Crackfix.Dlc-GRP" = some "Fix" := by
  refine ⟨?_, ?_, by decide, by decide⟩
  · intro title rd c h
    refine ⟨(toAddon?_eq_some_iff c _).mpr ⟨h, rfl⟩, ?_⟩
    simp [toBase?, h]
  · intro nfo feed s
    rcases pass_spec nfo feed s with ⟨-, heq⟩ | ⟨C, hCdef, -, hcase⟩
    · rw [heq]; exact Or.inl rfl
    · rcases hcase with ⟨-, heq⟩ | ⟨-, -, heq⟩ | ⟨-, p, rest, hr, heq⟩
      · rw [heq]; exact Or.inl rfl
      · rw [heq]; exact Or.inl rfl
      · rw [heq]
        refine Or.inr ⟨p.name, rfl, ?_⟩
        have hp : p ∈ C := by
          have hperm := rank_perm C
          rw [hr] at hperm
          exact hperm.subset (List.mem_cons_self p rest)
        rw [hCdef] at hp
        rcases List.mem_filterMap.mp hp with ⟨c0, -, hc0⟩
        rcases (toBase?_eq_some_iff _ _ c0 p).mp hc0 with ⟨h1, -, -, -, rfl⟩
        exact h1

/-- C5 witness: a DLC-keyword name is diverted to the add-on path, and the
pass on the FIX-named feed writes a primary whose keyword set avoids the
blocking set. -/
theorem addon_partition_amended_witness :
    (toAddon? dlcCand = some ("Game.DLC-GRP", "GRP") ∧
      toBase? "Game" Option.none dlcCand = Option.none) ∧
    ((processAllReleasesForGame demoNfo [fixCand]
        (monitoringStore "Game" Option.none)).game.release_name =
          (monitoringStore "Game" Option.none).game.release_name ∨
      ∃ nm, (processAllReleasesForGame demoNfo [fixCand]
        (monitoringStore "Game" Option.none)).game.release_name = some nm ∧
        hitsAny TYPE_BLOCKED_KEYWORDS (upperWords nm) = false) :=
  ⟨addon_partition_amended.1 "Game" Option.none dlcCand (by decide),
   addon_partition_amended.2.1 demoNfo [fixCand] (monitoringStore "Game" Option.none)⟩

/-! ## C6 -/

/-- A feed whose only candidate carries a millisecond-epoch timestamp: the
integer is a valid `int()` but is out of `datetime.fromtimestamp`'s year
range, so the scorer's bare `except` fires. -/
def hadesMsFeed : List Candidate :=
  [{ name := "Hades.II-TENOKE", source := "TENOKE", rtype := "Scene",
     timestamp := some 1727308800000 }]

/-- C6 counterexample: for the millisecond-epoch timestamp 1727308800000
against release date 2024-09-25 the day delta exceeds 1460, so the claim's
piecewise table demands -1000 and exclusion from primary selection; but the
timestamp is beyond `datetime.fromtimestamp`'s year 9999 bound, the bare
`except` returns the neutral score 0, the candidate survives the
negative-score filter, and the pass writes it as the primary release. -/
theorem relevancy_range_error_cx :
    1460 < Int.fdiv (1727308800000 - 86400 * epochDays ⟨2024, 9, 25⟩) 86400 ∧
    specRelevancyBuckets
      (Int.fdiv (1727308800000 - 86400 * epochDays ⟨2024, 9, 25⟩) 86400) = -1000 ∧
    calcRelevancyScore (some "2024-09-25") (PyTs.int 1727308800000) = 0 ∧
    (processAllReleasesForGame demoNfo hadesMsFeed hadesStore).game.release_name =
      some "Hades.II-TENOKE" :=
  ⟨by decide, by decide, by decide, by decide⟩

/-- C6 amended: the relevancy scorer agrees with the specification piecewise
table (0 on missing values; otherwise the recency bucket of the day delta)
for timestamps within `datetime.fromtimestamp`'s supported range
0001-01-01..9999-12-31 UTC; an out-of-range timestamp falls into the bare
`except` and scores the neutral 0 instead; within range the out-of-window
deltas score -1000, and the pass never selects a primary whose relevancy
score is negative. -/
theorem relevancy_score_piecewise_ranged :
    (∀ ts, calcRelevancyScore Option.none ts = 0) ∧
    (∀ rd, calcRelevancyScore rd PyTs.none = 0) ∧
    (∀ (ds : String) (d : Date) (n : Int), parseDateYMD ds = some d → n ≠ 0 →
      fromtimestampMin ≤ n → n ≤ fromtimestampMax →
      calcRelevancyScore (some ds) (PyTs.int n) =
        specRelevancyBuckets (Int.fdiv (n - 86400 * epochDays d) 86400)) ∧
    (∀ (ds : String) (n : Int), n ≠ 0 →
      n < fromtimestampMin ∨ fromtimestampMax < n →
      calcRelevancyScore (some ds) (PyTs.int n) = 0) ∧
    (∀ delta : Int, delta < -30 ∨ 1460 < delta → specRelevancyBuckets delta = -1000) ∧
    (∀ (title : String) (rd : Option String) (c : Candidate) (bc : BaseCand),
      toBase? title rd c = some bc →
        bc.score = calcRelevancyScore rd (optTs c.timestamp) ∧ 0 ≤ bc.score) ∧
    (∀ (nfo : NfoFetcher) (feed : List Candidate) (s : Store),
      s.game.status ≠ "Imported" →
      (processAllReleasesForGame nfo feed s).game.release_name = s.game.release_name ∨
      ∃ bc ∈ feed.filterMap (toBase? s.game.official_title s.game.release_date),
        (processAllReleasesForGame nfo feed s).game.release_name = some bc.name ∧
        0 ≤ bc.score) := by
  refine ⟨fun ts => rfl, ?_, ?_, ?_, ?_, ?_, ?_⟩
  · intro rd
    unfold calcRelevancyScore
    split_ifs with hcond
    · rfl
    · exact absurd (Or.inr (by simp [PyTs.truthy])) hcond
  · intro ds d n hparse hn hlo hhi
    unfold calcRelevancyScore
    split_ifs with hcond
    · exfalso
      rcases hcond with h1 | h2
      · rw [show (Option.getD (some ds) "") = ds from rfl] at h1
        rw [h1] at hparse
        cases hparse
      · exact h2 (by simp [PyTs.truthy, hn])
    · rw [show (Option.getD (some ds) "") = ds from rfl, hparse]
      show (if fromtimestampMin ≤ n ∧ n ≤ fromtimestampMax then
          bucketScore (Int.fdiv (n - 86400 * epochDays d) 86400) else 0) =
        specRelevancyBuckets (Int.fdiv (n - 86400 * epochDays d) 86400)
      rw [if_pos ⟨hlo, hhi⟩]
      rfl
  · intro ds n hn hrange
    unfold calcRelevancyScore
    split_ifs with hcond
    · rfl
    · rw [show (Option.getD (some ds) "") = ds from rfl]
      have hneg : ¬ (fromtimestampMin ≤ n ∧ n ≤ fromtimestampMax) := by
        intro hc
        unfold fromtimestampMin fromtimestampMax at hrange hc
        rcases hrange with h | h <;> omega
      cases hpp : parseDateYMD ds with
      | none => rfl
      | some d =>
        show (if fromtimestampMin ≤ n ∧ n ≤ fromtimestampMax then
            bucketScore (Int.fdiv (n - 86400 * epochDays d) 86400) else 0) = 0
        rw [if_neg hneg]
  · intro delta h
    rcases h with h | h <;> (unfold specRelevancyBuckets; split_ifs <;> omega)
  · intro title rd c bc h
    rcases (toBase?_eq_some_iff title rd c bc).mp h with ⟨-, -, -, h4, rfl⟩
    exact ⟨rfl, h4⟩
  · intro nfo feed s hst
    rcases pass_spec nfo feed s with ⟨-, heq⟩ | ⟨C, hCdef, -, hcase⟩
    · rw [heq]; exact Or.inl rfl
    · rcases hcase with ⟨-, heq⟩ | ⟨-, hs, -⟩ | ⟨-, p, rest, hr, heq⟩
      · rw [heq]; exact Or.inl rfl
      · exact absurd hs hst
      · rw [heq]
        have hp : p ∈ C := by
          have hperm := rank_perm C
          rw [hr] at hperm
          exact hperm.subset (List.mem_cons_self p rest)
        rw [hCdef] at hp
        refine Or.inr ⟨p, hp, rfl, ?_⟩
        rcases List.mem_filterMap.mp hp with ⟨c0, -, hc0⟩
        rcases (toBase?_eq_some_iff _ _ c0 p).mp hc0 with ⟨-, -, -, h4, rfl⟩
        exact h4

/-- C6 witness: the Hades II scenario scores its day-one timestamp (in
range) through the reference buckets, the millisecond-epoch variant of the
same timestamp scores the neutral 0, and the selected primary has a
non-negative score. -/
theorem relevancy_score_piecewise_ranged_witness :
    calcRelevancyScore (some "2024-09-25") (PyTs.int 1727308800) =
      specRelevancyBuckets (Int.fdiv (1727308800 - 86400 * epochDays ⟨2024, 9, 25⟩) 86400) ∧
    calcRelevancyScore (some "2024-09-25") (PyTs.int 1727308800000) = 0 ∧
    ((processAllReleasesForGame demoNfo hadesFeed hadesStore).game.release_name =
        hadesStore.game.release_name ∨
      ∃ bc ∈ hadesFeed.filterMap
        (toBase? hadesStore.game.official_title hadesStore.game.release_date),
        (processAllReleasesForGame demoNfo hadesFeed hadesStore).game.release_name =
          some bc.name ∧ 0 ≤ bc.score) :=
  ⟨relevancy_score_piecewise_ranged.2.2.1 "2024-09-25" ⟨2024, 9, 25⟩ 1727308800 (by decide)
    (by decide) (by decide) (by decide),
   relevancy_score_piecewise_ranged.2.2.2.1 "2024-09-25" 1727308800000 (by decide)
    (Or.inr (by decide)),
   relevancy_score_piecewise_ranged.2.2.2.2.2.2 demoNfo hadesFeed hadesStore (by decide)⟩

/-! ## C7 -/

def nswCand : Candidate :=
  { name := "Game.NSW-GRP", source := "GRP", rtype := "Scene", timestamp := Option.none }

def pcCand : Candidate :=
  { name := "Game.Crack-GRP", source := "GRP", rtype := "P2P", timestamp := Option.none }

/-- A candidate with a maximal sort key is PC whenever any PC candidate is
below it, since `is_pc` is the leading lexicographic component. -/
lemma is_pc_of_keyLe {c w : BaseCand} (h : keyLe (sortKey c) (sortKey w) = true)
    (hc : c.is_pc = true) : w.is_pc = true := by
  cases hw : w.is_pc with
  | true => rfl
  | false =>
    exfalso
    simp only [keyLe, sortKey, boolLe, hc, hw] at h
    simp at h

/-- C7 counterexample: a candidate carrying the non-PC platform marker `NSW`
is selected as the primary release when no PC candidate survives. -/
theorem platform_candidate_primary_cx :
    hitsAny PLATFORM_KEYWORDS (upperWords "Game.NSW-GRP") = true ∧
    (processAllReleasesForGame demoNfo [nswCand]
      (monitoringStore "Game" Option.none)).game.release_name = some "Game.NSW-GRP" := by
  decide

/-- C7 amended: a non-PC candidate is only ranked below every PC candidate
(`is_pc` leads the sort key), so it is never primary when at least one PC
candidate survives; in that case every non-PC candidate is retained only as
an `AlternativeRelease` row. -/
theorem platform_deprioritized_amended (nfo : NfoFetcher) (feed : List Candidate)
    (s : Store) (hst : s.game.status ≠ "Imported")
    (hpc : ∃ c ∈ feed.filterMap (toBase? s.game.official_title s.game.release_date),
      c.is_pc = true) :
    ∃ w rest,
      rankCandidates (feed.filterMap (toBase? s.game.official_title s.game.release_date)) =
        w :: rest ∧
      w.is_pc = true ∧
      (processAllReleasesForGame nfo feed s).game.release_name = some w.name ∧
      ∀ c ∈ feed.filterMap (toBase? s.game.official_title s.game.release_date),
        c.is_pc = false →
          mkAltRow nfo c ∈ (processAllReleasesForGame nfo feed s).alternatives := by
  obtain ⟨cpc, hcpc, hcpc_pc⟩ := hpc
  have hcands : feed.filterMap (toBase? s.game.official_title s.game.release_date) ≠ [] := by
    intro h
    rw [h] at hcpc
    cases hcpc
  rcases pass_spec nfo feed s with ⟨hnil, -⟩ | ⟨C, hCdef, -, hcase⟩
  · exfalso
    apply hcands
    rw [hnil]
    rfl
  · rw [← hCdef] at hcands hcpc ⊢
    rcases hcase with ⟨hC0, -⟩ | ⟨-, hs, -⟩ | ⟨-, p, rest, hr, heq⟩
    · exact absurd hC0 hcands
    · exact absurd hs hst
    · obtain ⟨w, rest2, hr2, -, hmax, hperm⟩ := rank_head_max C hcands
      rw [hr] at hr2
      injection hr2 with hw hrest
      subst hw
      subst hrest
      have hwpc : p.is_pc = true := is_pc_of_keyLe (hmax cpc hcpc) hcpc_pc
      rw [heq]
      refine ⟨p, rest, hr, hwpc, rfl, ?_⟩
      intro c hc hcnpc
      have hcp : c ≠ p := by
        intro hcp
        rw [hcp, hwpc] at hcnpc
        cases hcnpc
      have hcin : c ∈ p :: rest := hperm.mem_iff.mpr hc
      rcases List.mem_cons.mp hcin with h | h
      · exact absurd h hcp
      · show mkAltRow nfo c ∈ rest.map (mkAltRow nfo)
        exact List.mem_map_of_mem (mkAltRow nfo) h

/-- C7 witness: with a PC crack and an NSW release in the feed, the PC crack
wins and the NSW release is kept as an alternative. -/
theorem platform_deprioritized_amended_witness :
    ∃ w rest,
      rankCandidates ([nswCand, pcCand].filterMap
        (toBase? (monitoringStore "Game" Option.none).game.official_title
          (monitoringStore "Game" Option.none).game.release_date)) = w :: rest ∧
      w.is_pc = true ∧
      (processAllReleasesForGame demoNfo [nswCand, pcCand]
        (monitoringStore "Game" Option.none)).game.release_name = some w.name ∧
      ∀ c ∈ [nswCand, pcCand].filterMap
        (toBase? (monitoringStore "Game" Option.none).game.official_title
          (monitoringStore "Game" Option.none).game.release_date),
        c.is_pc = false →
          mkAltRow demoNfo c ∈ (processAllReleasesForGame demoNfo [nswCand, pcCand]
            (monitoringStore "Game" Option.none)).alternatives :=
  platform_deprioritized_amended demoNfo [nswCand, pcCand]
    (monitoringStore "Game" Option.none) (by decide) (by decide)

/-! ## C8 -/

/-- C8: a second reconciliation pass over an unchanged feed changes nothing,
and (for a feed of distinct clean names over a duplicate-free store) the
written `AlternativeRelease` and `AdditionalRelease` name lists stay
duplicate-free. -/
theorem reconcile_idempotent (nfo : NfoFetcher) (feed : List Candidate) (s : Store) :
    (processAllReleasesForGame nfo feed (processAllReleasesForGame nfo feed s) =
      processAllReleasesForGame nfo feed s) ∧
    ((cleanNames feed).Nodup → (altNames s.alternatives).Nodup →
      (addNames s.additionals).Nodup →
      (altNames (processAllReleasesForGame nfo feed s).alternatives).Nodup ∧
      (addNames (processAllReleasesForGame nfo feed s).additionals).Nodup) :=
  ⟨pass_idem nfo feed s, fun h1 h2 h3 =>
    ⟨pass_alternatives_nodup nfo feed s h1 h2,
     pass_additionals_nodup nfo feed s h1 h3⟩⟩

/-- C8 witness: idempotence and duplicate-freedom on the Hades II
scenario. -/
theorem reconcile_idempotent_witness :
    (processAllReleasesForGame demoNfo hadesFeed
        (processAllReleasesForGame demoNfo hadesFeed hadesStore) =
      processAllReleasesForGame demoNfo hadesFeed hadesStore) ∧
    (altNames (processAllReleasesForGame demoNfo hadesFeed hadesStore).alternatives).Nodup ∧
    (addNames (processAllReleasesForGame demoNfo hadesFeed hadesStore).additionals).Nodup :=
  ⟨(reconcile_idempotent demoNfo hadesFeed hadesStore).1,
   (reconcile_idempotent demoNfo hadesFeed hadesStore).2 (by decide) (by decide) (by decide)⟩

/-! ## C9 -/

/-- C9 counterexample: the immediate-check queue worker flips
`needs_release_check` off and commits before running the engine, so after a
pass that fails (`engineCompletes = false`) the flag is cleared, not set. -/
theorem flag_cleared_before_pass_cx :
    (monitoringStore "Game" Option.none).game.needs_release_check = true ∧
    (processReleaseCheckQueue demoNfo hadesFeed false
      (monitoringStore "Game" Option.none)).game.needs_release_check = false := by decide

/-- C9 amended: the queue worker clears the flag before invoking the engine
(single-claim lease), so the flag ends cleared whether or not the engine
completes; the engine itself clears the flag only at the end of a pass whose
feed was non-empty and leaves it untouched on the empty-feed early exit. -/
theorem flag_clearing_amended :
    (∀ (nfo : NfoFetcher) (feed : List Candidate) (ok : Bool) (s : Store),
      s.game.needs_release_check = true →
        (processReleaseCheckQueue nfo feed ok s).game.needs_release_check = false) ∧
    (∀ (nfo : NfoFetcher) (feed : List Candidate) (s : Store), feed ≠ [] →
      (processAllReleasesForGame nfo feed s).game.needs_release_check = false) ∧
    (∀ (nfo : NfoFetcher) (s : Store),
      (processAllReleasesForGame nfo [] s).game.needs_release_check =
        s.game.needs_release_check) := by
  have hpass : ∀ (nfo : NfoFetcher) (feed : List Candidate) (s : Store), feed ≠ [] →
      (processAllReleasesForGame nfo feed s).game.needs_release_check = false := by
    intro nfo feed s hne
    rcases feed with _ | ⟨c, cs⟩
    · exact absurd rfl hne
    · rw [pass_cons]
      rfl
  refine ⟨?_, hpass, fun nfo s => rfl⟩
  intro nfo feed ok s h
  unfold processReleaseCheckQueue
  rw [if_pos h]
  cases ok with
  | false => rfl
  | true =>
    show (processAllReleasesForGame nfo feed _).game.needs_release_check = false
    rcases feed with _ | ⟨c, cs⟩
    · rfl
    · rw [pass_cons]
      rfl

/-- C9 witness: a flagged store processed by a failing engine still ends
with the flag cleared, and a successful non-empty pass clears it too. -/
theorem flag_clearing_amended_witness :
    (processReleaseCheckQueue demoNfo hadesFeed false
      (monitoringStore "Game" Option.none)).game.needs_release_check = false ∧
    (processAllReleasesForGame demoNfo hadesFeed hadesStore).game.needs_release_check =
      false :=
  ⟨flag_clearing_amended.1 demoNfo hadesFeed false (monitoringStore "Game" Option.none)
    (by decide),
   flag_clearing_amended.2.1 demoNfo hadesFeed hadesStore (by decide)⟩

/-! ## C10 -/

/-- C10: the relevancy scorer is total; a release-date string that does not
parse as `YYYY-MM-DD`, or a timestamp string that does not convert to an
integer, yields the neutral score 0 — the same value as a missing date —
instead of an exception. -/
theorem relevancy_score_total_on_malformed :
    (∀ ts, calcRelevancyScore Option.none ts = 0) ∧
    (∀ (ds : String) (ts : PyTs), parseDateYMD ds = Option.none →
      calcRelevancyScore (some ds) ts = 0) ∧
    (∀ (rd : Option String) (t : String), PyTs.toInt (PyTs.str t) = Option.none →
      calcRelevancyScore rd (PyTs.str t) = 0) ∧
    parseDateYMD "2024/09/25" = Option.none ∧
    calcRelevancyScore (some "2024/09/25") (PyTs.int 1727308800) = 0 ∧
    calcRelevancyScore (some "not-a-date") (PyTs.int 5) = 0 := by
  refine ⟨fun ts => rfl, ?_, ?_, by decide, by decide, by decide⟩
  · intro ds ts hparse
    unfold calcRelevancyScore
    split_ifs with hcond
    · rfl
    · rw [show (Option.getD (some ds) "") = ds from rfl, hparse]
  · intro rd t hconv
    unfold calcRelevancyScore
    split_ifs with hcond
    · rfl
    · rw [show PyTs.toInt (PyTs.str t) = Option.none from hconv]
      rcases parseDateYMD (Option.getD rd "") with _ | d <;> rfl

/-- C10 witness: a slash-formatted date and a non-numeric timestamp both
degrade to the neutral score. -/
theorem relevancy_score_total_on_malformed_witness :
    calcRelevancyScore (some "2024/09/25") (PyTs.int 99) = 0 ∧
    calcRelevancyScore (some "2024-09-25") (PyTs.str "oops") = 0 :=
  ⟨relevancy_score_total_on_malformed.2.1 "2024/09/25" (PyTs.int 99) (by decide),
   relevancy_score_total_on_malformed.2.2.1 (some "2024-09-25") "oops" (by decide)⟩

end Gamearr
